import Mathlib

/-!
Shallow embedding of the changeset-spec assembly engine of `src-cli`
(`internal/batches/executor/changeset_specs.go`).

External collaborators (the template renderer, the multi-file diff parser and
printer of the go-diff library, and the publication-policy evaluator
`PublishedValue.ValueWithSuffix` of the sourcegraph batches library) are
modelled as function parameters, exactly at the interface through which the
source consumes them.  Everything else is translated from the Go source.

Errors are modelled by their message strings, since the Go code wraps errors
by prefixing messages (`errors.Wrap(err, msg)` yields `msg ++ ": " ++ err`).
A Go `panic` is modelled as a separate result constructor, distinct from an
error return.
-/

namespace SrcCLI

/-- A user-declared grouping rule (`batcheslib.Group`): optional repository
filter, a directory substring and a target branch. -/
structure Group where
  repository : String
  directory : String
  branch : String
deriving DecidableEq

/-- The diff of one file extracted from the combined diff (`FileDiff` of `go-diff`),
identified by its original and new path; the hunk contents are opaque here. -/
structure FileDiff where
  origName : String
  newName : String
  hunks : String
deriving DecidableEq

/-- The repository a task runs against; `baseRef` and `rev` model the
`BaseRef()` and `Rev()` accessors, whose outputs are opaque here. -/
structure Repository where
  name : String
  id : String
  baseRef : String
  rev : String

/-- A non-absent publication value: a boolean, or any other wire value
(such as the string draft). -/
inductive PublishedVal where
  | bool (b : Bool)
  | other (s : String)
deriving DecidableEq

/-- The commit author override of a changeset template (name and email are
template texts, still to be rendered). -/
structure CommitAuthor where
  name : String
  email : String

/-- The commit part of a changeset template. -/
structure CommitTemplate where
  message : String
  author : Option CommitAuthor

/-- The changeset template of a task.  The optional publication policy is
modelled by its evaluation function: `ValueWithSuffix repoName branch`
returns the value of the policy for that repository and branch, `none` meaning
absent. -/
structure ChangesetTemplate where
  title : String
  body : String
  branch : String
  commit : CommitTemplate
  published : Option (String → String → Option PublishedVal)

/-- The `transformChanges` configuration: the declared list of groups. -/
structure TransformChanges where
  group : List Group

/-- The per-repository execution context (`executor.Task`), restricted to the
fields read by `createChangesetSpecs`. -/
structure Task where
  repository : Repository
  template : ChangesetTemplate
  transformChanges : Option TransformChanges

/-- The output of running the transformation (`executionResult`), restricted
to the combined diff; the changed-file list, path and outputs only feed the
rendering context, which is abstracted into the renderer parameter. -/
structure ExecutionResult where
  diff : String

/-- The feature capability set (`batches.FeatureFlags`), restricted to the two
flags read by `createChangesetSpecs`. -/
structure FeatureFlags where
  allowOptionalPublished : Bool
  includeAutoAuthorDetails : Bool

/-- One commit description of a changeset spec. -/
structure GitCommitDescription where
  message : String
  authorName : String
  authorEmail : String
  diff : String
deriving DecidableEq

/-- The final artifact (`batcheslib.ChangesetSpec`). -/
structure ChangesetSpec where
  baseRepository : String
  baseRef : String
  baseRev : String
  headRepository : String
  headRef : String
  title : String
  body : String
  commits : List GitCommitDescription
  published : Option PublishedVal
deriving DecidableEq

/-- Result of a call that can fail with an error or die with a panic. -/
inductive Res (α : Type) where
  | panicked (msg : String)
  | err (e : String)
  | ok (v : α)
deriving DecidableEq

/-- The named validation error raised when the publication policy is omitted
but the connected service does not allow that (`errOptionalPublishedUnsupported`). -/
def errOptionalPublishedUnsupported : String :=
  "This Sourcegraph version requires the \"published\" field to be specified in the batch spec; upgrade to version 3.30.0 or later to be able to omit the published field and control publication from the UI."

/-- Modelled from the spec: head-ref normalization (`util.EnsureRefPrefix`,
whose source is outside the provided files) applies the canonical branch-ref
prefix if not already present. -/
def ensureRefPrefixed (ref : String) : String :=
  if "refs/heads/".isPrefixOf ref then ref else "refs/heads/" ++ ref

/-- `strings.Contains` on character lists: `needle` occurs inside the second
argument. -/
def charsContain (needle : List Char) : List Char → Bool
  | [] => needle.isEmpty
  | c :: t => needle.isPrefixOf (c :: t) || charsContain needle t

/-- `strings.Contains s sub`: unanchored substring containment. -/
def strContains (s sub : String) : Bool :=
  charsContain sub.toList s.toList

/-- The effective path of a file diff: the new path, or the original path when
the new path is the deletion sentinel (lines 201-204 of the source). -/
def effectiveName (f : FileDiff) : String :=
  if f.newName = "/dev/null" then f.origName else f.newName

/-- The matching-directory scan of `groupFileDiffs` (lines 208-213): walk all
configured directories in declaration order, remembering the last one that is
contained in `name`; empty when none matched. -/
def matchingDir (dirs : List String) (name : String) : String :=
  dirs.foldl (fun acc d => if strContains name d then d else acc) ""

/-- The `branchesByDirectory` map of `groupFileDiffs` (lines 189-194): built by
inserting the directory of each group in order, so a lookup returns the branch of
the last group declaring that directory. -/
def branchesByDirectory : List Group → String → Option String
  | [], _ => none
  | g :: gs, d =>
    match branchesByDirectory gs d with
    | some b => some b
    | none => if g.directory = d then some g.branch else none

/-- The per-file branch decision of the `groupFileDiffs` loop body
(lines 200-228): unmatched files go to the default branch; matched files go to
the branch looked up for the matched directory; a failed lookup is the panic
(line 225). -/
def branchFor (defaultBranch : String) (groups : List Group) (f : FileDiff) :
    Except String String :=
  let name := effectiveName f
  let d := matchingDir (groups.map (fun g => g.directory)) name
  if d = "" then Except.ok defaultBranch
  else
    match branchesByDirectory groups d with
    | some branch => Except.ok branch
    | none => Except.error ("this should not happen: " ++ d)

/-- Whether the loop body sends file `f` to branch `b` (a Bool view of
`branchFor` used to state the partition properties). -/
def sentToBranch (defaultBranch : String) (groups : List Group) (b : String)
    (f : FileDiff) : Bool :=
  match branchFor defaultBranch groups f with
  | Except.ok b0 => b0 == b
  | Except.error _ => false

/-- The branch-to-file-diffs accumulator of `groupFileDiffs` (`byBranch`): an
association list keyed by branch, in first-insertion order. -/
abbrev BranchMap := List (String × List FileDiff)

/-- `byBranch[b] = append(byBranch[b], f)`: append `f` to the list of branch `b`,
creating the entry when absent. -/
def appendToBranch : BranchMap → String → FileDiff → BranchMap
  | [], b, f => [(b, [f])]
  | (k, fs) :: rest, b, f =>
    if k = b then (k, fs ++ [f]) :: rest
    else (k, fs) :: appendToBranch rest b f

/-- Lookup of the file diffs assigned to a branch in the accumulator. -/
def lookupBranch : BranchMap → String → Option (List FileDiff)
  | [], _ => none
  | (k, fs) :: rest, b => if k = b then some fs else lookupBranch rest b

/-- The main loop of `groupFileDiffs` (lines 200-229), threading the
accumulator over the parsed file diffs; an error models the panic. -/
def groupFileDiffsGo (defaultBranch : String) (groups : List Group) :
    List FileDiff → BranchMap → Except String BranchMap
  | [], byBranch => Except.ok byBranch
  | f :: rest, byBranch =>
    match branchFor defaultBranch groups f with
    | Except.error e => Except.error e
    | Except.ok b => groupFileDiffsGo defaultBranch groups rest (appendToBranch byBranch b f)

/-- The grouping core of `groupFileDiffs` (lines 186-229): starting from the
accumulator holding only the default branch with no files, assign every parsed
file diff to a branch. -/
def groupFileDiffsCore (fileDiffs : List FileDiff) (defaultBranch : String)
    (groups : List Group) : Except String BranchMap :=
  groupFileDiffsGo defaultBranch groups fileDiffs [(defaultBranch, [])]

/-- The reserialization loop of `groupFileDiffs` (lines 231-238): print each
file diffs of each branch, wrapping a print failure with the named message. -/
def printBranches (printDiff : List FileDiff → Except String String) :
    BranchMap → Except String (List (String × String))
  | [] => Except.ok []
  | (branch, diffs) :: rest =>
    match printDiff diffs with
    | Except.error e => Except.error ("printing multi file diff failed: " ++ e)
    | Except.ok printed =>
      match printBranches printDiff rest with
      | Except.error e => Except.error e
      | Except.ok out => Except.ok ((branch, printed) :: out)

/-- `groupFileDiffs` (lines 180-240), parameterized by the external diff
parser and printer: parse the combined diff, group the file diffs by branch,
and reserialize each branch. -/
def groupFileDiffs (parse : String → Except String (List FileDiff))
    (printDiff : List FileDiff → Except String String)
    (completeDiff defaultBranch : String) (groups : List Group) :
    Res (List (String × String)) :=
  match parse completeDiff with
  | Except.error e => Res.err e
  | Except.ok fileDiffs =>
    match groupFileDiffsCore fileDiffs defaultBranch groups with
    | Except.error msg => Res.panicked msg
    | Except.ok byBranch =>
      match printBranches printDiff byBranch with
      | Except.error e => Res.err e
      | Except.ok out => Res.ok out

/-- `groupsForRepository` (lines 142-160): the groups applicable to one
repository, in declaration order; a group applies when its repository filter
is empty or equals the repository name; an absent configuration yields the
empty list. -/
def groupsForRepository (repoName : String) (transform : Option TransformChanges) :
    List Group :=
  match transform with
  | none => []
  | some t => t.group.filter (fun g => g.repository == "" || g.repository == repoName)

/-- The duplicate-branch validation message (line 167). -/
def dupBranchMsg (repoName branch : String) : String :=
  "transformChanges would lead to multiple changesets in repository " ++ repoName ++
    " to have the same branch \"" ++ branch ++ "\""

/-- The branch-equals-default validation message (line 173). -/
def branchDefaultMsg (repoName defaultBranch : String) : String :=
  "transformChanges group branch for repository " ++ repoName ++
    " is the same as branch \"" ++ defaultBranch ++ "\" in changesetTemplate"

/-- The loop of `validateGroups` (lines 165-175), threading the set of branch
names seen so far. -/
def validateGroupsGo (repoName defaultBranch : String) :
    List String → List Group → Option String
  | _, [] => none
  | seen, g :: gs =>
    if g.branch ∈ seen then some (dupBranchMsg repoName g.branch)
    else if g.branch = defaultBranch then some (branchDefaultMsg repoName defaultBranch)
    else validateGroupsGo repoName defaultBranch (g.branch :: seen) gs

/-- `validateGroups` (lines 162-178): `none` means the group list is valid;
`some msg` is the first validation failure found in declaration order. -/
def validateGroups (repoName defaultBranch : String) (groups : List Group) :
    Option String :=
  validateGroupsGo repoName defaultBranch [] groups

/-- The author-resolution step of `createChangesetSpecs` (lines 29-48),
parameterized by the external renderer (already closed over the shared
template context). -/
def resolveAuthor (render : String → String → Except String String)
    (task : Task) (features : FeatureFlags) : Except String (String × String) :=
  match task.template.commit.author with
  | none =>
    if features.includeAutoAuthorDetails then
      Except.ok ("Sourcegraph", "batch-changes@sourcegraph.com")
    else
      Except.ok ("", "")
  | some author =>
    match render "authorName" author.name with
    | Except.error e => Except.error e
    | Except.ok authorName =>
      match render "authorEmail" author.email with
      | Except.error e => Except.error e
      | Except.ok authorEmail => Except.ok (authorName, authorEmail)

/-- The `newSpec` closure of `createChangesetSpecs` (lines 73-107): resolve
the publication value and build one changeset spec for a branch and its diff
text. -/
def newSpec (task : Task) (features : FeatureFlags)
    (title body message authorName authorEmail : String)
    (branch diffText : String) : Except String ChangesetSpec :=
  let publishedRes : Except String (Option PublishedVal) :=
    match task.template.published with
    | some policy =>
      let published := policy task.repository.name branch
      if published = none ∧ features.allowOptionalPublished = false then
        Except.ok (some (PublishedVal.bool false))
      else
        Except.ok published
    | none =>
      if features.allowOptionalPublished = false then
        Except.error errOptionalPublishedUnsupported
      else
        Except.ok none
  match publishedRes with
  | Except.error e => Except.error e
  | Except.ok published =>
    Except.ok {
      baseRepository := task.repository.id
      baseRef := task.repository.baseRef
      baseRev := task.repository.rev
      headRepository := task.repository.id
      headRef := ensureRefPrefixed branch
      title := title
      body := body
      commits := [{ message := message, authorName := authorName,
                    authorEmail := authorEmail, diff := diffText }]
      published := published }

/-- The per-branch spec-construction loop of `createChangesetSpecs`
(lines 124-130): build one spec per (branch, diff) pair, failing fast. -/
def buildSpecsLoop (task : Task) (features : FeatureFlags)
    (title body message authorName authorEmail : String) :
    List (String × String) → Except String (List ChangesetSpec)
  | [] => Except.ok []
  | (branch, diffText) :: rest =>
    match newSpec task features title body message authorName authorEmail branch diffText with
    | Except.error e => Except.error e
    | Except.ok spec =>
      match buildSpecsLoop task features title body message authorName authorEmail rest with
      | Except.error e => Except.error e
      | Except.ok specs => Except.ok (spec :: specs)

/-- The grouping-and-assembly tail of `createChangesetSpecs` (lines 109-139):
select the applicable groups; if any, validate them (against the unrendered
template branch, as in the source), partition the diff and build one spec per
branch; otherwise build a single spec for the rendered default branch with the
unmodified combined diff. -/
def assembleSpecs (parse : String → Except String (List FileDiff))
    (printDiff : List FileDiff → Except String String)
    (task : Task) (features : FeatureFlags)
    (title body message authorName authorEmail defaultBranch resultDiff : String) :
    Res (List ChangesetSpec) :=
  let groups := groupsForRepository task.repository.name task.transformChanges
  if groups ≠ [] then
    match validateGroups task.repository.name task.template.branch groups with
    | some e => Res.err e
    | none =>
      match groupFileDiffs parse printDiff resultDiff defaultBranch groups with
      | Res.panicked msg => Res.panicked msg
      | Res.err e => Res.err ("grouping diffs failed: " ++ e)
      | Res.ok diffsByBranch =>
        match buildSpecsLoop task features title body message authorName authorEmail diffsByBranch with
        | Except.error e => Res.err e
        | Except.ok specs => Res.ok specs
  else
    match newSpec task features title body message authorName authorEmail defaultBranch resultDiff with
    | Except.error e => Res.err e
    | Except.ok spec => Res.ok [spec]

/-- `createChangesetSpecs` (lines 18-140), parameterized by the external
renderer, diff parser and diff printer: resolve the author, render the
metadata fields fail-fast, then assemble one spec per resulting branch. -/
def createChangesetSpecs (render : String → String → Except String String)
    (parse : String → Except String (List FileDiff))
    (printDiff : List FileDiff → Except String String)
    (task : Task) (result : ExecutionResult) (features : FeatureFlags) :
    Res (List ChangesetSpec) :=
  match resolveAuthor render task features with
  | Except.error e => Res.err e
  | Except.ok (authorName, authorEmail) =>
    match render "title" task.template.title with
    | Except.error e => Res.err e
    | Except.ok title =>
      match render "body" task.template.body with
      | Except.error e => Res.err e
      | Except.ok body =>
        match render "message" task.template.commit.message with
        | Except.error e => Res.err e
        | Except.ok message =>
          match render "branch" task.template.branch with
          | Except.error e => Res.err e
          | Except.ok defaultBranch =>
            assembleSpecs parse printDiff task features title body message
              authorName authorEmail defaultBranch result.diff

/-! Helper lemmas about the matching scan and the branch accumulator. -/

theorem charsContain_iff (needle : List Char) (hay : List Char) :
    charsContain needle hay = true ↔ List.IsInfix needle hay := by
  induction hay with
  | nil => simp [charsContain, List.infix_nil, List.isEmpty_iff]
  | cons c t ih =>
    simp [charsContain, Bool.or_eq_true, List.isPrefixOf_iff_prefix, ih,
      List.infix_cons_iff]

theorem strContains_iff (s sub : String) :
    strContains s sub = true ↔ List.IsInfix sub.toList s.toList :=
  charsContain_iff sub.toList s.toList

theorem strContains_empty (s : String) : strContains s "" = true := by
  rw [strContains_iff]
  exact List.nil_infix

theorem foldl_lastMatch (p : String → Bool) (dirs : List String) :
    ∀ init : String,
      dirs.foldl (fun acc d => if p d then d else acc) init
        = (dirs.filter p).getLastD init := by
  induction dirs with
  | nil => intro init; simp
  | cons d ds ih =>
    intro init
    rw [List.foldl_cons, List.filter_cons]
    by_cases h : p d = true
    · rw [if_pos h, if_pos h, ih, List.getLastD_cons]
    · rw [if_neg h, if_neg h, ih]

theorem matchingDir_eq (dirs : List String) (name : String) :
    matchingDir dirs name
      = (dirs.filter (fun d => strContains name d)).getLastD "" :=
  foldl_lastMatch (fun d => strContains name d) dirs ""

theorem foldl_lastMatch_mem (p : String → Bool) (dirs : List String) :
    ∀ init : String,
      dirs.foldl (fun acc d => if p d then d else acc) init = init ∨
        dirs.foldl (fun acc d => if p d then d else acc) init ∈ dirs := by
  induction dirs with
  | nil => intro init; exact Or.inl rfl
  | cons d ds ih =>
    intro init
    rw [List.foldl_cons]
    rcases ih (if p d then d else init) with h | h
    · rw [h]
      by_cases hp : p d = true
      · rw [if_pos hp]
        exact Or.inr (List.mem_cons_self d ds)
      · rw [if_neg hp]
        exact Or.inl rfl
    · exact Or.inr (List.mem_cons_of_mem d h)

theorem matchingDir_mem (dirs : List String) (name : String) :
    matchingDir dirs name = "" ∨ matchingDir dirs name ∈ dirs :=
  foldl_lastMatch_mem (fun d => strContains name d) dirs ""

theorem branchesByDirectory_isSome (gs : List Group) (d : String)
    (h : d ∈ gs.map (fun g => g.directory)) :
    (branchesByDirectory gs d).isSome = true := by
  induction gs with
  | nil => simp at h
  | cons g gs ih =>
    rw [List.map_cons, List.mem_cons] at h
    show (match branchesByDirectory gs d with
      | some b => some b
      | none => if g.directory = d then some g.branch else none).isSome = true
    cases hb : branchesByDirectory gs d with
    | some b => simp
    | none =>
      rcases h with h | h
      · simp [h]
      · have := ih h
        rw [hb] at this
        simp at this

theorem branchFor_ok (db : String) (gs : List Group) (f : FileDiff) :
    ∃ b, branchFor db gs f = Except.ok b := by
  unfold branchFor
  by_cases hd : matchingDir (gs.map (fun g => g.directory)) (effectiveName f) = ""
  · exact ⟨db, by simp [hd]⟩
  · have hmem : matchingDir (gs.map (fun g => g.directory)) (effectiveName f)
        ∈ gs.map (fun g => g.directory) := by
      rcases matchingDir_mem (gs.map (fun g => g.directory)) (effectiveName f) with h | h
      · exact absurd h hd
      · exact h
    have hsome := branchesByDirectory_isSome gs _ hmem
    cases hb : branchesByDirectory gs
        (matchingDir (gs.map (fun g => g.directory)) (effectiveName f)) with
    | some b => exact ⟨b, by simp [hd, hb]⟩
    | none => rw [hb] at hsome; simp at hsome

theorem sentToBranch_iff (db : String) (gs : List Group) (b : String) (f : FileDiff) :
    sentToBranch db gs b f = true ↔ branchFor db gs f = Except.ok b := by
  unfold sentToBranch
  cases hb : branchFor db gs f with
  | ok b0 => simp [beq_iff_eq]
  | error e => simp

theorem lookup_appendToBranch (acc : BranchMap) (b0 : String) (f : FileDiff) (b : String) :
    lookupBranch (appendToBranch acc b0 f) b =
      if b = b0 then some ((lookupBranch acc b).getD [] ++ [f])
      else lookupBranch acc b := by
  induction acc with
  | nil =>
    by_cases h : b = b0
    · subst h; simp [appendToBranch, lookupBranch]
    · simp [appendToBranch, lookupBranch, h, Ne.symm h]
  | cons p rest ih =>
    obtain ⟨k, fs⟩ := p
    by_cases hk : k = b0
    · subst hk
      by_cases hb : b = k
      · subst hb; simp [appendToBranch, lookupBranch]
      · simp [appendToBranch, lookupBranch, hb, Ne.symm hb]
    · by_cases hkb : k = b
      · subst hkb
        have hb : ¬ k = b0 := hk
        simp [appendToBranch, lookupBranch, hk, hb]
      · simp [appendToBranch, lookupBranch, hk, hkb, ih]

theorem go_lookup (db : String) (gs : List Group) :
    ∀ (fds : List FileDiff) (acc m : BranchMap),
      groupFileDiffsGo db gs fds acc = Except.ok m → ∀ b : String,
        lookupBranch m b =
          match lookupBranch acc b with
          | some l => some (l ++ fds.filter (sentToBranch db gs b))
          | none =>
            if fds.filter (sentToBranch db gs b) = [] then none
            else some (fds.filter (sentToBranch db gs b)) := by
  intro fds
  induction fds with
  | nil =>
    intro acc m h b
    simp only [groupFileDiffsGo] at h
    cases h
    cases hl : lookupBranch acc b <;> simp [hl]
  | cons f rest ih =>
    intro acc m h b
    simp only [groupFileDiffsGo] at h
    cases hbf : branchFor db gs f with
    | error e => rw [hbf] at h; cases h
    | ok b0 =>
      rw [hbf] at h
      have hrec := ih (appendToBranch acc b0 f) m h b
      have hsent : sentToBranch db gs b f = (b0 == b) := by
        unfold sentToBranch; rw [hbf]
      by_cases hb : b = b0
      · subst hb
        have hfil : (f :: rest).filter (sentToBranch db gs b)
            = f :: rest.filter (sentToBranch db gs b) := by
          rw [List.filter_cons, hsent]
          simp
        rw [lookup_appendToBranch] at hrec
        simp only [if_pos rfl] at hrec
        rw [hfil, hrec]
        cases hl : lookupBranch acc b with
        | some l => simp [hl, List.append_assoc]
        | none => simp [hl]
      · have hfil : (f :: rest).filter (sentToBranch db gs b)
            = rest.filter (sentToBranch db gs b) := by
          rw [List.filter_cons, hsent]
          have : (b0 == b) = false := beq_eq_false_iff_ne.mpr (fun hc => hb hc.symm)
          simp [this]
        rw [lookup_appendToBranch, if_neg hb] at hrec
        rw [hfil, hrec]

theorem core_lookup (fds : List FileDiff) (db : String) (gs : List Group)
    (m : BranchMap) (h : groupFileDiffsCore fds db gs = Except.ok m) (b : String) :
    lookupBranch m b =
      if b = db then some (fds.filter (sentToBranch db gs b))
      else if fds.filter (sentToBranch db gs b) = [] then none
      else some (fds.filter (sentToBranch db gs b)) := by
  have := go_lookup db gs fds [(db, [])] m h b
  by_cases hb : b = db
  · subst hb
    simp only [lookupBranch, if_pos rfl] at this
    simp [this]
  · have hdb : ¬ db = b := fun hc => hb hc.symm
    simp only [lookupBranch, if_neg hdb] at this
    simp [this, hb]

theorem go_ok (db : String) (gs : List Group) :
    ∀ (fds : List FileDiff) (acc : BranchMap),
      ∃ m, groupFileDiffsGo db gs fds acc = Except.ok m := by
  intro fds
  induction fds with
  | nil => intro acc; exact ⟨acc, rfl⟩
  | cons f rest ih =>
    intro acc
    obtain ⟨b, hb⟩ := branchFor_ok db gs f
    obtain ⟨m, hm⟩ := ih (appendToBranch acc b f)
    refine ⟨m, ?_⟩
    simp only [groupFileDiffsGo]
    rw [hb]
    exact hm

theorem core_ok (fds : List FileDiff) (db : String) (gs : List Group) :
    ∃ m, groupFileDiffsCore fds db gs = Except.ok m :=
  go_ok db gs fds [(db, [])]

/-! Helper lemmas about `validateGroups`. -/

theorem validateGroupsGo_none_iff (r db : String) :
    ∀ (gs : List Group) (seen : List String),
      validateGroupsGo r db seen gs = none ↔
        ((gs.map (fun g => g.branch)).Nodup ∧
          ∀ g ∈ gs, g.branch ∉ seen ∧ g.branch ≠ db) := by
  intro gs
  induction gs with
  | nil => intro seen; simp [validateGroupsGo]
  | cons g gs ih =>
    intro seen
    simp only [validateGroupsGo]
    by_cases h1 : g.branch ∈ seen
    · rw [if_pos h1]
      simp only [List.mem_cons]
      constructor
      · intro h; cases h
      · rintro ⟨-, hall⟩
        exact absurd h1 (hall g (Or.inl rfl)).1
    · rw [if_neg h1]
      by_cases h2 : g.branch = db
      · rw [if_pos h2]
        simp only [List.mem_cons]
        constructor
        · intro h; cases h
        · rintro ⟨-, hall⟩
          exact absurd h2 (hall g (Or.inl rfl)).2
      · rw [if_neg h2, ih]
        simp only [List.map_cons, List.nodup_cons, List.mem_cons, List.mem_map]
        constructor
        · rintro ⟨hnd, hall⟩
          refine ⟨⟨?_, hnd⟩, ?_⟩
          · rintro ⟨g1, hg1, heq⟩
            exact (hall g1 hg1).1 (Or.inl heq)
          · intro g1 hg1
            rcases hg1 with hg1 | hg1
            · subst hg1; exact ⟨h1, h2⟩
            · have := hall g1 hg1
              exact ⟨fun hc => this.1 (Or.inr hc), this.2⟩
        · rintro ⟨⟨hnm, hnd⟩, hall⟩
          refine ⟨hnd, ?_⟩
          intro g1 hg1
          have hne : ¬ g1.branch = g.branch := fun hc => hnm ⟨g1, hg1, hc⟩
          have := hall g1 (Or.inr hg1)
          exact ⟨fun hc => hc.elim hne this.1, this.2⟩

theorem validateGroups_none_iff (r db : String) (gs : List Group) :
    validateGroups r db gs = none ↔
      (gs.map (fun g => g.branch)).Nodup ∧ ∀ g ∈ gs, g.branch ≠ db := by
  rw [validateGroups, validateGroupsGo_none_iff]
  simp

theorem validateGroupsGo_append (r db : String) :
    ∀ (gs1 : List Group) (seen : List String) (gs2 : List Group),
      validateGroupsGo r db seen gs1 = none →
      validateGroupsGo r db seen (gs1 ++ gs2) =
        validateGroupsGo r db (gs1.reverse.map (fun g => g.branch) ++ seen) gs2 := by
  intro gs1
  induction gs1 with
  | nil => intro seen gs2 _; simp
  | cons g gs1 ih =>
    intro seen gs2 h
    simp only [validateGroupsGo] at h
    by_cases h1 : g.branch ∈ seen
    · rw [if_pos h1] at h; cases h
    · rw [if_neg h1] at h
      by_cases h2 : g.branch = db
      · rw [if_pos h2] at h; cases h
      · rw [if_neg h2] at h
        show validateGroupsGo r db seen (g :: (gs1 ++ gs2)) = _
        simp only [validateGroupsGo, if_neg h1, if_neg h2]
        rw [ih (g.branch :: seen) gs2 h]
        congr 1
        simp [List.append_assoc]

/-! Helper lemmas about `printBranches`, `newSpec`, `buildSpecsLoop` and the
assembly pipeline. -/

theorem printBranches_err (printDiff : List FileDiff → Except String String) :
    ∀ (m : BranchMap) (e : String),
      printBranches printDiff m = Except.error e →
      ∃ e0 l, printDiff l = Except.error e0 ∧
        e = "printing multi file diff failed: " ++ e0 := by
  intro m
  induction m with
  | nil => intro e h; cases h
  | cons p rest ih =>
    obtain ⟨branch, diffs⟩ := p
    intro e h
    simp only [printBranches] at h
    cases hp : printDiff diffs with
    | error e0 =>
      rw [hp] at h
      cases h
      exact ⟨e0, diffs, hp, rfl⟩
    | ok printed =>
      rw [hp] at h
      cases hr : printBranches printDiff rest with
      | error e1 =>
        rw [hr] at h
        cases h
        exact ih e hr
      | ok out => rw [hr] at h; cases h

theorem printBranches_ok (printDiff : List FileDiff → Except String String) :
    ∀ (m : BranchMap) (out : List (String × String)),
      printBranches printDiff m = Except.ok out →
      List.Forall₂ (fun p q => p.1 = q.1 ∧ printDiff p.2 = Except.ok q.2) m out := by
  intro m
  induction m with
  | nil =>
    intro out h
    cases h
    exact List.Forall₂.nil
  | cons p rest ih =>
    obtain ⟨branch, diffs⟩ := p
    intro out h
    simp only [printBranches] at h
    cases hp : printDiff diffs with
    | error e0 => rw [hp] at h; cases h
    | ok printed =>
      rw [hp] at h
      cases hr : printBranches printDiff rest with
      | error e1 => rw [hr] at h; cases h
      | ok out0 =>
        rw [hr] at h
        cases h
        exact List.Forall₂.cons ⟨rfl, hp⟩ (ih out0 hr)

theorem newSpec_ok_shape (task : Task) (features : FeatureFlags)
    (title body message an ae branch diffText : String) (spec : ChangesetSpec)
    (h : newSpec task features title body message an ae branch diffText
      = Except.ok spec) :
    spec.headRef = ensureRefPrefixed branch ∧
    spec.commits = [⟨message, an, ae, diffText⟩] := by
  simp only [newSpec] at h
  split at h
  · cases h
  · cases h
    exact ⟨rfl, rfl⟩

theorem buildSpecsLoop_commits (task : Task) (features : FeatureFlags)
    (title body message an ae : String) :
    ∀ (pairs : List (String × String)) (specs : List ChangesetSpec),
      buildSpecsLoop task features title body message an ae pairs = Except.ok specs →
      ∀ spec ∈ specs, ∀ c ∈ spec.commits, c.authorName = an ∧ c.authorEmail = ae := by
  intro pairs
  induction pairs with
  | nil =>
    intro specs h
    cases h
    intro spec hs
    simp at hs
  | cons p rest ih =>
    obtain ⟨branch, diffText⟩ := p
    intro specs h
    simp only [buildSpecsLoop] at h
    cases hn : newSpec task features title body message an ae branch diffText with
    | error e => rw [hn] at h; cases h
    | ok spec0 =>
      rw [hn] at h
      cases hr : buildSpecsLoop task features title body message an ae rest with
      | error e => rw [hr] at h; cases h
      | ok specs0 =>
        rw [hr] at h
        cases h
        intro spec hs c hc
        rcases List.mem_cons.mp hs with h1 | h1
        · subst h1
          have hshape := newSpec_ok_shape task features title body message an ae
            branch diffText spec hn
          rw [hshape.2] at hc
          rcases List.mem_singleton.mp hc with rfl
          exact ⟨rfl, rfl⟩
        · exact ih specs0 hr spec h1 c hc

theorem assembleSpecs_no_groups (parse : String → Except String (List FileDiff))
    (printDiff : List FileDiff → Except String String)
    (task : Task) (features : FeatureFlags)
    (title body message an ae db rd : String)
    (hg : groupsForRepository task.repository.name task.transformChanges = [])
    (specs : List ChangesetSpec)
    (h : assembleSpecs parse printDiff task features title body message an ae db rd
      = Res.ok specs) :
    ∃ spec, specs = [spec] ∧
      newSpec task features title body message an ae db rd = Except.ok spec := by
  simp only [assembleSpecs, hg] at h
  simp only [ne_eq, not_true_eq_false, if_false] at h
  cases hn : newSpec task features title body message an ae db rd with
  | error e => rw [hn] at h; cases h
  | ok spec =>
    rw [hn] at h
    cases h
    exact ⟨spec, rfl, rfl⟩

theorem assembleSpecs_commits (parse : String → Except String (List FileDiff))
    (printDiff : List FileDiff → Except String String)
    (task : Task) (features : FeatureFlags)
    (title body message an ae db rd : String)
    (specs : List ChangesetSpec)
    (h : assembleSpecs parse printDiff task features title body message an ae db rd
      = Res.ok specs) :
    ∀ spec ∈ specs, ∀ c ∈ spec.commits, c.authorName = an ∧ c.authorEmail = ae := by
  simp only [assembleSpecs, ne_eq] at h
  by_cases hg : groupsForRepository task.repository.name task.transformChanges = []
  case neg =>
    rw [if_pos hg] at h
    split at h
    · cases h
    · split at h
      · cases h
      · cases h
      · split at h
        · cases h
        · rename_i hbl
          cases h
          exact buildSpecsLoop_commits task features title body message an ae _ _ hbl
  case pos =>
    rw [if_neg (not_not_intro hg)] at h
    cases hn : newSpec task features title body message an ae db rd with
    | error e => rw [hn] at h; cases h
    | ok spec0 =>
      rw [hn] at h
      cases h
      intro spec hs c hc
      rcases List.mem_singleton.mp hs with rfl
      have hshape := newSpec_ok_shape task features title body message an ae db rd
        spec hn
      rw [hshape.2] at hc
      rcases List.mem_singleton.mp hc with rfl
      exact ⟨rfl, rfl⟩

theorem create_ok_inv (render : String → String → Except String String)
    (parse : String → Except String (List FileDiff))
    (printDiff : List FileDiff → Except String String)
    (task : Task) (result : ExecutionResult) (features : FeatureFlags)
    (specs : List ChangesetSpec)
    (h : createChangesetSpecs render parse printDiff task result features
      = Res.ok specs) :
    ∃ an ae title body message db,
      resolveAuthor render task features = Except.ok (an, ae) ∧
      render "title" task.template.title = Except.ok title ∧
      render "body" task.template.body = Except.ok body ∧
      render "message" task.template.commit.message = Except.ok message ∧
      render "branch" task.template.branch = Except.ok db ∧
      assembleSpecs parse printDiff task features title body message an ae db
        result.diff = Res.ok specs := by
  simp only [createChangesetSpecs] at h
  cases ha : resolveAuthor render task features with
  | error e => rw [ha] at h; cases h
  | ok pair =>
    obtain ⟨an, ae⟩ := pair
    rw [ha] at h
    cases ht : render "title" task.template.title with
    | error e => rw [ht] at h; cases h
    | ok title =>
      rw [ht] at h
      cases hb : render "body" task.template.body with
      | error e => rw [hb] at h; cases h
      | ok body =>
        rw [hb] at h
        cases hm : render "message" task.template.commit.message with
        | error e => rw [hm] at h; cases h
        | ok message =>
          rw [hm] at h
          cases hbr : render "branch" task.template.branch with
          | error e => rw [hbr] at h; cases h
          | ok db =>
            rw [hbr] at h
            exact ⟨an, ae, title, body, message, db, rfl, rfl, rfl, rfl, rfl, h⟩

theorem core_mem_iff (fds : List FileDiff) (db : String) (gs : List Group)
    (m : BranchMap) (h : groupFileDiffsCore fds db gs = Except.ok m)
    (b : String) (f : FileDiff) :
    (∃ l, lookupBranch m b = some l ∧ f ∈ l) ↔
      f ∈ fds ∧ sentToBranch db gs b f = true := by
  rw [core_lookup fds db gs m h b]
  by_cases hb : b = db
  · subst hb
    simp [List.mem_filter]
  · rw [if_neg hb]
    by_cases hf : fds.filter (sentToBranch db gs b) = []
    · rw [if_pos hf]
      constructor
      · rintro ⟨l, hl, -⟩; cases hl
      · rintro ⟨hmem, hsent⟩
        have : f ∈ fds.filter (sentToBranch db gs b) :=
          List.mem_filter.mpr ⟨hmem, hsent⟩
        rw [hf] at this
        simp at this
    · rw [if_neg hf]
      simp [List.mem_filter]

theorem go_all_default (db : String) (gs2 : List Group)
    (hbf : ∀ f, branchFor db gs2 f = Except.ok db) :
    ∀ (fds : List FileDiff) (l : List FileDiff),
      groupFileDiffsGo db gs2 fds [(db, l)] = Except.ok [(db, l ++ fds)] := by
  intro fds
  induction fds with
  | nil => intro l; simp [groupFileDiffsGo]
  | cons f rest ih =>
    intro l
    simp only [groupFileDiffsGo, hbf f]
    have happ : appendToBranch [(db, l)] db f = [(db, l ++ [f])] := by
      simp [appendToBranch]
    rw [happ, ih (l ++ [f]), List.append_assoc, List.singleton_append]

/-- Claim C2: for every well-formed combined diff (modelled by its parsed list
of file diffs) and every group list passing validation, the grouping loop
assigns each file diff to exactly one branch of the output mapping (no
duplication, no loss), and a file diff contained in no configured directory
substring is assigned to the default branch. -/
theorem groupFileDiffs_partition (fds : List FileDiff) (db repoName : String)
    (gs : List Group) (hv : validateGroups repoName db gs = none)
    (m : BranchMap) (h : groupFileDiffsCore fds db gs = Except.ok m) :
    (∀ f ∈ fds, ∃! b : String, ∃ l, lookupBranch m b = some l ∧ f ∈ l) ∧
    (∀ f ∈ fds, (∀ g ∈ gs, strContains (effectiveName f) g.directory = false) →
      ∃ l, lookupBranch m db = some l ∧ f ∈ l) := by
  constructor
  · intro f hf
    obtain ⟨b, hb⟩ := branchFor_ok db gs f
    refine ⟨b, ?_, ?_⟩
    · exact (core_mem_iff fds db gs m h b f).mpr
        ⟨hf, (sentToBranch_iff db gs b f).mpr hb⟩
    · intro b1 hb1
      have hs1 := ((core_mem_iff fds db gs m h b1 f).mp hb1).2
      have := (sentToBranch_iff db gs b1 f).mp hs1
      rw [hb] at this
      exact (Except.ok.inj this).symm
  · intro f hf hnone
    have hfil : (gs.map (fun g => g.directory)).filter
        (fun d => strContains (effectiveName f) d) = [] := by
      rw [List.filter_eq_nil_iff]
      intro d hd
      rw [List.mem_map] at hd
      obtain ⟨g, hg, rfl⟩ := hd
      simp [hnone g hg]
    have hmd : matchingDir (gs.map (fun g => g.directory)) (effectiveName f) = "" := by
      rw [matchingDir_eq, hfil]
      rfl
    have hbf : branchFor db gs f = Except.ok db := by
      simp only [branchFor, hmd]
      rfl
    exact (core_mem_iff fds db gs m h db f).mpr
      ⟨hf, (sentToBranch_iff db gs db f).mpr hbf⟩

/-- Witness for claim C2 at a concrete diff and group list. -/
theorem groupFileDiffs_partition_witness :
    validateGroups "repo" "main" [⟨"", "backend/", "grouped-backend"⟩] = none ∧
    groupFileDiffsCore
        [⟨"backend/a.go", "backend/a.go", "h1"⟩, ⟨"frontend/b.ts", "frontend/b.ts", "h2"⟩]
        "main" [⟨"", "backend/", "grouped-backend"⟩]
      = Except.ok [("main", [⟨"frontend/b.ts", "frontend/b.ts", "h2"⟩]),
                   ("grouped-backend", [⟨"backend/a.go", "backend/a.go", "h1"⟩])] ∧
    (∀ f ∈ [(⟨"backend/a.go", "backend/a.go", "h1"⟩ : FileDiff),
            ⟨"frontend/b.ts", "frontend/b.ts", "h2"⟩],
      ∃! b : String, ∃ l,
        lookupBranch [("main", [⟨"frontend/b.ts", "frontend/b.ts", "h2"⟩]),
                      ("grouped-backend", [⟨"backend/a.go", "backend/a.go", "h1"⟩])] b
          = some l ∧ f ∈ l) :=
  ⟨rfl, rfl,
    (groupFileDiffs_partition
      [⟨"backend/a.go", "backend/a.go", "h1"⟩, ⟨"frontend/b.ts", "frontend/b.ts", "h2"⟩]
      "main" "repo" [⟨"", "backend/", "grouped-backend"⟩] rfl
      [("main", [⟨"frontend/b.ts", "frontend/b.ts", "h2"⟩]),
       ("grouped-backend", [⟨"backend/a.go", "backend/a.go", "h1"⟩])] rfl).1⟩

/-- Counterexample to claim C3 as stated: with the groups (directory a-slash,
branch branch-a) and (empty directory, branch last-branch), the path a/f.go is
contained in both configured directory substrings and the empty string is the
matching directory declared last, yet the file is assigned to the default
branch main, not to last-branch. -/
theorem groupFileDiffs_last_match_cex :
    strContains "a/f.go" "" = true ∧
    strContains "a/f.go" "a/" = true ∧
    groupFileDiffsCore [⟨"a/f.go", "a/f.go", "x"⟩] "main"
        [⟨"", "a/", "branch-a"⟩, ⟨"", "", "last-branch"⟩]
      = Except.ok [("main", [⟨"a/f.go", "a/f.go", "x"⟩])] ∧
    lookupBranch [("main", [⟨"a/f.go", "a/f.go", "x"⟩])] "last-branch" = none :=
  ⟨rfl, rfl, rfl, rfl⟩

/-- Claim C3 as amended: the effective path of every file diff is tested against
every configured directory substring by unanchored substring containment, and
the selected matching directory is the matching entry declared last; when that
directory is non-empty the file is assigned to the branch mapped to it, but
when the last matching directory is the empty string the match is discarded
and the file is assigned to the default branch. -/
theorem groupFileDiffs_last_match (fds : List FileDiff) (db : String)
    (gs : List Group) (m : BranchMap)
    (h : groupFileDiffsCore fds db gs = Except.ok m)
    (f : FileDiff) (hf : f ∈ fds) :
    (∀ d : String, strContains (effectiveName f) d = true ↔
      List.IsInfix d.toList (effectiveName f).toList) ∧
    matchingDir (gs.map (fun g => g.directory)) (effectiveName f)
      = ((gs.map (fun g => g.directory)).filter
          (fun d => strContains (effectiveName f) d)).getLastD "" ∧
    (matchingDir (gs.map (fun g => g.directory)) (effectiveName f) ≠ "" →
      ∃ b, branchesByDirectory gs
          (matchingDir (gs.map (fun g => g.directory)) (effectiveName f)) = some b ∧
        ∃ l, lookupBranch m b = some l ∧ f ∈ l) ∧
    (matchingDir (gs.map (fun g => g.directory)) (effectiveName f) = "" →
      ∃ l, lookupBranch m db = some l ∧ f ∈ l) := by
  refine ⟨fun d => strContains_iff (effectiveName f) d,
    matchingDir_eq (gs.map (fun g => g.directory)) (effectiveName f), ?_, ?_⟩
  · intro hne
    have hmem : matchingDir (gs.map (fun g => g.directory)) (effectiveName f)
        ∈ gs.map (fun g => g.directory) := by
      rcases matchingDir_mem (gs.map (fun g => g.directory)) (effectiveName f) with h1 | h1
      · exact absurd h1 hne
      · exact h1
    have hsome := branchesByDirectory_isSome gs _ hmem
    cases hlk : branchesByDirectory gs
        (matchingDir (gs.map (fun g => g.directory)) (effectiveName f)) with
    | none => rw [hlk] at hsome; simp at hsome
    | some b =>
      refine ⟨b, rfl, ?_⟩
      have hbf : branchFor db gs f = Except.ok b := by
        simp only [branchFor, if_neg hne, hlk]
      exact (core_mem_iff fds db gs m h b f).mpr
        ⟨hf, (sentToBranch_iff db gs b f).mpr hbf⟩
  · intro heq
    have hbf : branchFor db gs f = Except.ok db := by
      simp only [branchFor, heq]
      rfl
    exact (core_mem_iff fds db gs m h db f).mpr
      ⟨hf, (sentToBranch_iff db gs db f).mpr hbf⟩

/-- Witness for claim C3 as amended, at a concrete diff and group list. -/
theorem groupFileDiffs_last_match_witness :
    groupFileDiffsCore [⟨"a/f.go", "a/f.go", "x"⟩] "main" [⟨"", "a/", "ba"⟩]
      = Except.ok [("main", []), ("ba", [⟨"a/f.go", "a/f.go", "x"⟩])] ∧
    (matchingDir (([⟨"", "a/", "ba"⟩] : List Group).map (fun g => g.directory)) "a/f.go" ≠ "" →
      ∃ b, branchesByDirectory [⟨"", "a/", "ba"⟩]
          (matchingDir (([⟨"", "a/", "ba"⟩] : List Group).map (fun g => g.directory)) "a/f.go")
        = some b ∧
        ∃ l, lookupBranch [("main", []), ("ba", [⟨"a/f.go", "a/f.go", "x"⟩])] b
          = some l ∧ (⟨"a/f.go", "a/f.go", "x"⟩ : FileDiff) ∈ l) :=
  ⟨rfl,
    (groupFileDiffs_last_match [⟨"a/f.go", "a/f.go", "x"⟩] "main" [⟨"", "a/", "ba"⟩]
      [("main", []), ("ba", [⟨"a/f.go", "a/f.go", "x"⟩])] rfl
      ⟨"a/f.go", "a/f.go", "x"⟩ (List.mem_singleton.mpr rfl)).2.2.1⟩

/-- Claim C9: when the group declared last has an empty directory substring,
the empty string is the last matching directory for every file diff, the match
is treated as no match, and every file diff is assigned to the default branch;
every other group branch receives no file. -/
theorem groupFileDiffs_empty_dir_last (fds : List FileDiff) (db : String)
    (gs : List Group) (g : Group) (hg : g.directory = "") :
    groupFileDiffsCore fds db (gs ++ [g]) = Except.ok [(db, fds)] := by
  have hbf : ∀ f, branchFor db (gs ++ [g]) f = Except.ok db := by
    intro f
    have hmd : matchingDir ((gs ++ [g]).map (fun g1 => g1.directory))
        (effectiveName f) = "" := by
      rw [matchingDir_eq, List.map_append, List.filter_append]
      have : List.filter (fun d => strContains (effectiveName f) d)
          ([g].map (fun g1 => g1.directory)) = [""] := by
        simp [hg, strContains_empty]
      rw [this, List.getLastD_concat]
    simp only [branchFor, hmd]
    rfl
  have := go_all_default db (gs ++ [g]) hbf fds []
  rw [List.nil_append] at this
  exact this

/-- Witness for claim C9 at a concrete diff and group list. -/
theorem groupFileDiffs_empty_dir_last_witness :
    groupFileDiffsCore
        [⟨"backend/y.go", "backend/y.go", "hy"⟩] "base"
        ([⟨"", "backend/", "gbackend"⟩] ++ [⟨"", "", "catchall"⟩])
      = Except.ok [("base", [⟨"backend/y.go", "backend/y.go", "hy"⟩])] :=
  groupFileDiffs_empty_dir_last [⟨"backend/y.go", "backend/y.go", "hy"⟩] "base"
    [⟨"", "backend/", "gbackend"⟩] ⟨"", "", "catchall"⟩ rfl

/-- Claim C10: whenever the matching directory selected for an effective path
is non-empty, it is a key of the directory-to-branch lookup built from the
same group list, so the internal panic branch of the grouping loop is
unreachable: the loop always returns a mapping. -/
theorem groupFileDiffs_panic_unreachable (fds : List FileDiff) (db : String)
    (gs : List Group) :
    (∀ name : String, matchingDir (gs.map (fun g => g.directory)) name ≠ "" →
      (branchesByDirectory gs
        (matchingDir (gs.map (fun g => g.directory)) name)).isSome = true) ∧
    ∃ m, groupFileDiffsCore fds db gs = Except.ok m := by
  constructor
  · intro name hne
    rcases matchingDir_mem (gs.map (fun g => g.directory)) name with h1 | h1
    · exact absurd h1 hne
    · exact branchesByDirectory_isSome gs _ h1
  · exact core_ok fds db gs

/-- Witness for claim C10 at a concrete group list and path. -/
theorem groupFileDiffs_panic_unreachable_witness :
    matchingDir (([⟨"", "a/", "b"⟩] : List Group).map (fun g => g.directory)) "a/x" ≠ "" ∧
    (branchesByDirectory [⟨"", "a/", "b"⟩]
      (matchingDir (([⟨"", "a/", "b"⟩] : List Group).map (fun g => g.directory)) "a/x")).isSome
      = true ∧
    ∃ m, groupFileDiffsCore [] "main" [⟨"", "a/", "b"⟩] = Except.ok m :=
  ⟨by decide,
    (groupFileDiffs_panic_unreachable [] "main" [⟨"", "a/", "b"⟩]).1 "a/x" (by decide),
    (groupFileDiffs_panic_unreachable [] "main" [⟨"", "a/", "b"⟩]).2⟩

/-- Claim C4: `validateGroups` fails exactly when two groups share a branch
name or the branch of some group equals the default branch; it succeeds otherwise,
including on the empty list, and on failure it reports the first violation
found in declaration order (the duplicate check preceding the default-branch
check within one group). -/
theorem validateGroups_characterization (repoName db : String) (gs : List Group) :
    (validateGroups repoName db gs = none ↔
      (gs.map (fun g => g.branch)).Nodup ∧ ∀ g ∈ gs, g.branch ≠ db) ∧
    (∀ gs1 (g : Group) gs2, gs = gs1 ++ g :: gs2 →
      validateGroups repoName db gs1 = none →
      (g.branch ∈ gs1.map (fun g1 => g1.branch) →
        validateGroups repoName db gs = some (dupBranchMsg repoName g.branch)) ∧
      (g.branch ∉ gs1.map (fun g1 => g1.branch) → g.branch = db →
        validateGroups repoName db gs = some (branchDefaultMsg repoName db))) := by
  refine ⟨validateGroups_none_iff repoName db gs, ?_⟩
  intro gs1 g gs2 hgs hv1
  subst hgs
  have happ := validateGroupsGo_append repoName db gs1 [] (g :: gs2) hv1
  have hmem_iff : ∀ x : String,
      x ∈ gs1.reverse.map (fun g1 => g1.branch) ++ ([] : List String) ↔
        x ∈ gs1.map (fun g1 => g1.branch) := by
    intro x
    simp [List.mem_reverse]
  constructor
  · intro hmem
    unfold validateGroups
    rw [happ]
    simp only [validateGroupsGo]
    rw [if_pos ((hmem_iff g.branch).mpr hmem)]
  · intro hnmem heq
    unfold validateGroups
    rw [happ]
    simp only [validateGroupsGo]
    rw [if_neg (fun hc => hnmem ((hmem_iff g.branch).mp hc)), if_pos heq]

/-- Witness for claim C4: the empty list validates, and a duplicated branch is
reported with the duplicate-branch message for the first offending group. -/
theorem validateGroups_characterization_witness :
    validateGroups "repo" "main" [] = none ∧
    validateGroups "repo" "main" [⟨"", "d1", "b"⟩, ⟨"", "d2", "b"⟩]
      = some (dupBranchMsg "repo" "b") :=
  ⟨(validateGroups_characterization "repo" "main" []).1.mpr (by simp),
    ((validateGroups_characterization "repo" "main"
        [⟨"", "d1", "b"⟩, ⟨"", "d2", "b"⟩]).2
      [⟨"", "d1", "b"⟩] ⟨"", "d2", "b"⟩ [] rfl rfl).1 (by simp)⟩

/-- Claim C6: in the mapping produced by the grouping loop for a validated
group list, the default branch is always present (with no files when nothing
was assigned to it), a configured group to which no file diff was assigned is
absent, the file list of each present branch is an in-order subsequence of the
input, and reserialization prints exactly the list of each branch in mapping
order. -/
theorem groupFileDiffs_mapping (fds : List FileDiff) (db repoName : String)
    (gs : List Group) (hv : validateGroups repoName db gs = none)
    (m : BranchMap) (h : groupFileDiffsCore fds db gs = Except.ok m)
    (printDiff : List FileDiff → Except String String) :
    (∃ l, lookupBranch m db = some l ∧
      ((∀ f ∈ fds, sentToBranch db gs db f = false) → l = [])) ∧
    (∀ g ∈ gs, (∀ f ∈ fds, sentToBranch db gs g.branch f = false) →
      lookupBranch m g.branch = none) ∧
    (∀ b l, lookupBranch m b = some l → List.Sublist l fds) ∧
    (∀ out, printBranches printDiff m = Except.ok out →
      List.Forall₂ (fun p q => p.1 = q.1 ∧ printDiff p.2 = Except.ok q.2) m out) := by
  have hnd := (validateGroups_none_iff repoName db gs).mp hv
  refine ⟨?_, ?_, ?_, ?_⟩
  · refine ⟨fds.filter (sentToBranch db gs db), ?_, ?_⟩
    · rw [core_lookup fds db gs m h db, if_pos rfl]
    · intro hall
      rw [List.filter_eq_nil_iff]
      intro f hf
      simp [hall f hf]
  · intro g hg hall
    have hneq : g.branch ≠ db := hnd.2 g hg
    have hfil : fds.filter (sentToBranch db gs g.branch) = [] := by
      rw [List.filter_eq_nil_iff]
      intro f hf
      simp [hall f hf]
    rw [core_lookup fds db gs m h g.branch, if_neg hneq, if_pos hfil]
  · intro b l hl
    rw [core_lookup fds db gs m h b] at hl
    by_cases hb : b = db
    · rw [if_pos hb] at hl
      cases hl
      exact List.filter_sublist fds
    · rw [if_neg hb] at hl
      by_cases hf : fds.filter (sentToBranch db gs b) = []
      · rw [if_pos hf] at hl
        cases hl
      · rw [if_neg hf] at hl
        cases hl
        exact List.filter_sublist fds
  · intro out hout
    exact printBranches_ok printDiff m out hout

/-- Witness for claim C6 at a concrete diff and group list: the default branch
main is present with an empty list, and the group gz with no matching file is
absent from the mapping. -/
theorem groupFileDiffs_mapping_witness :
    validateGroups "repo" "main" [⟨"", "backend/", "gb"⟩, ⟨"", "zzz/", "gz"⟩] = none ∧
    groupFileDiffsCore [⟨"backend/a.go", "backend/a.go", "h1"⟩] "main"
        [⟨"", "backend/", "gb"⟩, ⟨"", "zzz/", "gz"⟩]
      = Except.ok [("main", []), ("gb", [⟨"backend/a.go", "backend/a.go", "h1"⟩])] ∧
    (∃ l, lookupBranch
        [("main", []), ("gb", [⟨"backend/a.go", "backend/a.go", "h1"⟩])] "main"
        = some l ∧
      ((∀ f ∈ [(⟨"backend/a.go", "backend/a.go", "h1"⟩ : FileDiff)],
        sentToBranch "main" [⟨"", "backend/", "gb"⟩, ⟨"", "zzz/", "gz"⟩] "main" f
          = false) → l = [])) ∧
    lookupBranch [("main", []), ("gb", [⟨"backend/a.go", "backend/a.go", "h1"⟩])] "gz"
      = none :=
  ⟨rfl, rfl,
    (groupFileDiffs_mapping [⟨"backend/a.go", "backend/a.go", "h1"⟩] "main" "repo"
      [⟨"", "backend/", "gb"⟩, ⟨"", "zzz/", "gz"⟩] rfl
      [("main", []), ("gb", [⟨"backend/a.go", "backend/a.go", "h1"⟩])] rfl
      (fun _ => Except.ok "")).1,
    (groupFileDiffs_mapping [⟨"backend/a.go", "backend/a.go", "h1"⟩] "main" "repo"
      [⟨"", "backend/", "gb"⟩, ⟨"", "zzz/", "gz"⟩] rfl
      [("main", []), ("gb", [⟨"backend/a.go", "backend/a.go", "h1"⟩])] rfl
      (fun _ => Except.ok "")).2.1 ⟨"", "zzz/", "gz"⟩ (by simp) (by decide)⟩

/-- Counterexample to claim C7 as stated: a parse failure is propagated from
`groupFileDiffs` with the message of the parser unchanged, not as a wrapped
named error, and a parse error that happens to carry the printing wrapper text
is indistinguishable from a genuine printing failure. -/
theorem groupFileDiffs_error_reporting_cex :
    groupFileDiffs (fun _ => Except.error "malformed") (fun _ => Except.ok "")
        "x" "main" [] = Res.err "malformed" ∧
    groupFileDiffs (fun _ => Except.error "printing multi file diff failed: x")
        (fun _ => Except.ok "") "x" "main" []
      = groupFileDiffs (fun _ => Except.ok []) (fun _ => Except.error "x")
        "x" "main" [] :=
  ⟨rfl, rfl⟩

/-- Claim C7 as amended: a printing failure is reported by `groupFileDiffs` as
a wrapped, named error (prefixed with the printing-failed message), while a
parsing failure is propagated with the message of the parser unchanged; every
error of `groupFileDiffs` is of one of these two shapes. -/
theorem groupFileDiffs_error_reporting
    (parse : String → Except String (List FileDiff))
    (printDiff : List FileDiff → Except String String)
    (cd db : String) (gs : List Group) :
    (∀ e, parse cd = Except.error e →
      groupFileDiffs parse printDiff cd db gs = Res.err e) ∧
    (∀ e, groupFileDiffs parse printDiff cd db gs = Res.err e →
      parse cd = Except.error e ∨
      ∃ e0 l, printDiff l = Except.error e0 ∧
        e = "printing multi file diff failed: " ++ e0) := by
  constructor
  · intro e he
    simp [groupFileDiffs, he]
  · intro e h
    unfold groupFileDiffs at h
    split at h
    · rename_i e1 hp
      cases h
      exact Or.inl hp
    · rename_i fds hp
      split at h
      · cases h
      · rename_i byBranch hc
        split at h
        · rename_i e1 hpr
          cases h
          exact Or.inr (printBranches_err printDiff byBranch _ hpr)
        · cases h

/-- Witness for claim C7 as amended: a concrete parse failure surfaces with
the message of the parser. -/
theorem groupFileDiffs_error_reporting_witness :
    groupFileDiffs (fun _ => Except.error "bad diff") (fun _ => Except.ok "")
        "cd" "main" [] = Res.err "bad diff" :=
  (groupFileDiffs_error_reporting (fun _ => Except.error "bad diff")
    (fun _ => Except.ok "") "cd" "main" []).1 "bad diff" rfl

/-- Claim C1: for every task and branch, the publication value of the
constructed changeset spec is the declared policy evaluated at the repository
name and branch, coalesced to the explicit boolean false when the evaluation
is absent and optional publication is not allowed, and left absent when it is
allowed; with no declared policy the value is absent when optional publication
is allowed, and the construction fails with the named validation error when it
is not. -/
theorem newSpec_publication_resolution (task : Task) (features : FeatureFlags)
    (title body message an ae branch diffText : String) :
    (∀ policy, task.template.published = some policy →
      ∃ spec,
        newSpec task features title body message an ae branch diffText
          = Except.ok spec ∧
        spec.published =
          (if policy task.repository.name branch = none ∧
              features.allowOptionalPublished = false
            then some (PublishedVal.bool false)
            else policy task.repository.name branch)) ∧
    (task.template.published = none →
      (features.allowOptionalPublished = true →
        ∃ spec,
          newSpec task features title body message an ae branch diffText
            = Except.ok spec ∧ spec.published = none) ∧
      (features.allowOptionalPublished = false →
        newSpec task features title body message an ae branch diffText
          = Except.error errOptionalPublishedUnsupported)) := by
  constructor
  · intro policy hp
    simp only [newSpec, hp]
    by_cases hc : policy task.repository.name branch = none ∧
        features.allowOptionalPublished = false
    · rw [if_pos hc, if_pos hc]
      exact ⟨_, rfl, rfl⟩
    · rw [if_neg hc, if_neg hc]
      exact ⟨_, rfl, rfl⟩
  · intro hp
    constructor
    · intro hflag
      simp only [newSpec, hp, hflag]
      exact ⟨_, rfl, rfl⟩
    · intro hflag
      simp only [newSpec, hp, hflag]
      rw [if_pos trivial]

/-- Witness for claim C1: a concrete task with no publication policy fails
with the named error when optional publication is not allowed. -/
theorem newSpec_publication_resolution_witness :
    newSpec ⟨⟨"r", "id", "bref", "brev"⟩, ⟨"t", "b", "br", ⟨"m", none⟩, none⟩, none⟩
        ⟨false, false⟩ "t" "b" "m" "" "" "branch" "d"
      = Except.error errOptionalPublishedUnsupported :=
  ((newSpec_publication_resolution
      ⟨⟨"r", "id", "bref", "brev"⟩, ⟨"t", "b", "br", ⟨"m", none⟩, none⟩, none⟩
      ⟨false, false⟩ "t" "b" "m" "" "" "branch" "d").2 rfl).2 rfl

/-- Claim C5: for every task whose applicable group list is empty, a
successful assembly produces exactly one changeset spec, whose head ref is the
rendered default branch in canonical ref form and whose single commit carries
the unmodified combined diff of the execution result. -/
theorem createChangesetSpecs_no_groups
    (render : String → String → Except String String)
    (parse : String → Except String (List FileDiff))
    (printDiff : List FileDiff → Except String String)
    (task : Task) (result : ExecutionResult) (features : FeatureFlags)
    (hg : groupsForRepository task.repository.name task.transformChanges = [])
    (defaultBranch : String)
    (hb : render "branch" task.template.branch = Except.ok defaultBranch)
    (specs : List ChangesetSpec)
    (h : createChangesetSpecs render parse printDiff task result features
      = Res.ok specs) :
    ∃ spec c, specs = [spec] ∧ spec.headRef = ensureRefPrefixed defaultBranch ∧
      spec.commits = [c] ∧ c.diff = result.diff := by
  obtain ⟨an, ae, title, body, message, db, ha, ht, hbo, hm, hbr, hass⟩ :=
    create_ok_inv render parse printDiff task result features specs h
  rw [hb] at hbr
  have hdb := Except.ok.inj hbr
  subst hdb
  obtain ⟨spec, hspecs, hnew⟩ := assembleSpecs_no_groups parse printDiff task features
    title body message an ae defaultBranch result.diff hg specs hass
  have hshape := newSpec_ok_shape task features title body message an ae defaultBranch
    result.diff spec hnew
  exact ⟨spec, ⟨message, an, ae, result.diff⟩, hspecs, hshape.1, hshape.2, rfl⟩

/-- Witness for claim C5 at a concrete task with no grouping configuration. -/
theorem createChangesetSpecs_no_groups_witness :
    createChangesetSpecs (fun _ t => Except.ok t) (fun _ => Except.ok [])
        (fun _ => Except.ok "")
        ⟨⟨"r", "id", "bref", "brev"⟩, ⟨"t", "b", "br", ⟨"m", none⟩, none⟩, none⟩
        ⟨"d"⟩ ⟨true, true⟩
      = Res.ok [{ baseRepository := "id", baseRef := "bref", baseRev := "brev",
                  headRepository := "id", headRef := "refs/heads/br",
                  title := "t", body := "b",
                  commits := [⟨"m", "Sourcegraph", "batch-changes@sourcegraph.com", "d"⟩],
                  published := none }] ∧
    ∃ spec c,
      [({ baseRepository := "id", baseRef := "bref", baseRev := "brev",
          headRepository := "id", headRef := "refs/heads/br",
          title := "t", body := "b",
          commits := [⟨"m", "Sourcegraph", "batch-changes@sourcegraph.com", "d"⟩],
          published := none } : ChangesetSpec)] = [spec] ∧
      spec.headRef = ensureRefPrefixed "br" ∧ spec.commits = [c] ∧ c.diff = "d" :=
  ⟨rfl,
    createChangesetSpecs_no_groups (fun _ t => Except.ok t) (fun _ => Except.ok [])
      (fun _ => Except.ok "")
      ⟨⟨"r", "id", "bref", "brev"⟩, ⟨"t", "b", "br", ⟨"m", none⟩, none⟩, none⟩
      ⟨"d"⟩ ⟨true, true⟩ rfl "br" rfl
      [{ baseRepository := "id", baseRef := "bref", baseRev := "brev",
         headRepository := "id", headRef := "refs/heads/br",
         title := "t", body := "b",
         commits := [⟨"m", "Sourcegraph", "batch-changes@sourcegraph.com", "d"⟩],
         published := none }] rfl⟩

/-- Claim C8: with no author override, every produced commit description
carries the fixed non-empty bot name and address when automatic author
defaulting is enabled, and empty strings when it is not; with an override, the
name and email templates are rendered through the shared renderer and any
render failure aborts the whole call. -/
theorem createChangesetSpecs_author
    (render : String → String → Except String String)
    (parse : String → Except String (List FileDiff))
    (printDiff : List FileDiff → Except String String)
    (task : Task) (result : ExecutionResult) (features : FeatureFlags) :
    (task.template.commit.author = none →
      ∀ specs, createChangesetSpecs render parse printDiff task result features
          = Res.ok specs →
        ∀ spec ∈ specs, ∀ c ∈ spec.commits,
          (features.includeAutoAuthorDetails = true →
            c.authorName = "Sourcegraph" ∧
            c.authorEmail = "batch-changes@sourcegraph.com" ∧
            c.authorName ≠ "" ∧ c.authorEmail ≠ "") ∧
          (features.includeAutoAuthorDetails = false →
            c.authorName = "" ∧ c.authorEmail = "")) ∧
    (∀ author, task.template.commit.author = some author →
      (∀ e, render "authorName" author.name = Except.error e →
        createChangesetSpecs render parse printDiff task result features
          = Res.err e) ∧
      (∀ n, render "authorName" author.name = Except.ok n →
        (∀ e, render "authorEmail" author.email = Except.error e →
          createChangesetSpecs render parse printDiff task result features
            = Res.err e) ∧
        (∀ mm, render "authorEmail" author.email = Except.ok mm →
          ∀ specs, createChangesetSpecs render parse printDiff task result features
              = Res.ok specs →
            ∀ spec ∈ specs, ∀ c ∈ spec.commits,
              c.authorName = n ∧ c.authorEmail = mm))) := by
  constructor
  · intro hauth specs h spec hs c hc
    obtain ⟨an, ae, title, body, message, db, ha, ht, hbo, hm, hbr, hass⟩ :=
      create_ok_inv render parse printDiff task result features specs h
    have hcom := assembleSpecs_commits parse printDiff task features title body message
      an ae db result.diff specs hass spec hs c hc
    simp only [resolveAuthor, hauth] at ha
    constructor
    · intro hflag
      rw [hflag, if_pos rfl] at ha
      have hpair := Except.ok.inj ha
      rw [Prod.mk.injEq] at hpair
      obtain ⟨hn, he⟩ := hpair
      refine ⟨(hcom.1).trans hn.symm, (hcom.2).trans he.symm, ?_, ?_⟩
      · rw [hcom.1, ← hn]
        decide
      · rw [hcom.2, ← he]
        decide
    · intro hflag
      rw [hflag, if_neg (by simp)] at ha
      have hpair := Except.ok.inj ha
      rw [Prod.mk.injEq] at hpair
      obtain ⟨hn, he⟩ := hpair
      exact ⟨(hcom.1).trans hn.symm, (hcom.2).trans he.symm⟩
  · intro author hauth
    constructor
    · intro e he
      have h1 : resolveAuthor render task features = Except.error e := by
        simp only [resolveAuthor, hauth, he]
      unfold createChangesetSpecs
      rw [h1]
    · intro n hn
      constructor
      · intro e he
        have h1 : resolveAuthor render task features = Except.error e := by
          simp only [resolveAuthor, hauth, hn, he]
        unfold createChangesetSpecs
        rw [h1]
      · intro mm hmm specs h spec hs c hc
        obtain ⟨an, ae, title, body, message, db, ha, ht, hbo, hm2, hbr, hass⟩ :=
          create_ok_inv render parse printDiff task result features specs h
        have h1 : resolveAuthor render task features = Except.ok (n, mm) := by
          simp only [resolveAuthor, hauth, hn, hmm]
        rw [h1] at ha
        have hpair := Except.ok.inj ha
        rw [Prod.mk.injEq] at hpair
        obtain ⟨hn2, he2⟩ := hpair
        have hcom := assembleSpecs_commits parse printDiff task features title body
          message an ae db result.diff specs hass spec hs c hc
        exact ⟨(hcom.1).trans hn2.symm, (hcom.2).trans he2.symm⟩

/-- Witness for claim C8 at a concrete task with no author override and
automatic author defaulting enabled. -/
theorem createChangesetSpecs_author_witness :
    ∀ spec ∈ [({ baseRepository := "id", baseRef := "bref", baseRev := "brev",
                 headRepository := "id", headRef := "refs/heads/br",
                 title := "t", body := "b",
                 commits := [⟨"m", "Sourcegraph", "batch-changes@sourcegraph.com", "d"⟩],
                 published := none } : ChangesetSpec)],
      ∀ c ∈ spec.commits,
        ((⟨true, true⟩ : FeatureFlags).includeAutoAuthorDetails = true →
          c.authorName = "Sourcegraph" ∧
          c.authorEmail = "batch-changes@sourcegraph.com" ∧
          c.authorName ≠ "" ∧ c.authorEmail ≠ "") ∧
        ((⟨true, true⟩ : FeatureFlags).includeAutoAuthorDetails = false →
          c.authorName = "" ∧ c.authorEmail = "") :=
  (createChangesetSpecs_author (fun _ t => Except.ok t) (fun _ => Except.ok [])
    (fun _ => Except.ok "")
    ⟨⟨"r", "id", "bref", "brev"⟩, ⟨"t", "b", "br", ⟨"m", none⟩, none⟩, none⟩
    ⟨"d"⟩ ⟨true, true⟩).1 rfl
    [{ baseRepository := "id", baseRef := "bref", baseRev := "brev",
       headRepository := "id", headRef := "refs/heads/br",
       title := "t", body := "b",
       commits := [⟨"m", "Sourcegraph", "batch-changes@sourcegraph.com", "d"⟩],
       published := none }] rfl

end SrcCLI
